import Mathlib

/-!
Verification of the knowledge scoping and ranking engine in
src/app/api/chat/route.ts (a Next.js chat endpoint).

The engine consists of:
* a row type PortfolioRow mirroring the Supabase / CSV schema;
* loadAllKnowledge: a cached load of all rows, degrading to an empty list
  on any collaborator failure;
* scopeKnowledgeToMessage: lexical relevance filtering, two-tier priority
  ranking via a stable sort, and truncation to at most 12 rows;
* buildContextText: deterministic serialization of the selected rows;
* history normalization and truncation inside the POST handler.

Modelling conventions: TypeScript strings are Lean String values
(JavaScript toLowerCase / trim are modelled by the character-level
functions jsToLower / jsTrim, which agree with them on the data the
engine handles);
nullable fields are Option values; JavaScript exceptions are the error
branch of Except; the stable Array.prototype.sort is modelled by the
stable List.mergeSort from the standard library.
-/

set_option maxHeartbeats 1000000

/-- Boolean test that the character list needle is a prefix of hay,
written out primitively so that it can be related to an explicit
append decomposition below. -/
def prefixAux : List Char → List Char → Bool
  | [], _ => true
  | _ :: _, [] => false
  | a :: as, b :: bs => a == b && prefixAux as bs

/-- Boolean test that needle occurs contiguously inside hay; this is the
semantics of the JavaScript String.prototype.includes used by the filter. -/
def includesAux (needle : List Char) : List Char → Bool
  | [] => needle.isEmpty
  | c :: t => prefixAux needle (c :: t) || includesAux needle t

/-- JavaScript hay.includes(needle). -/
def strIncludes (hay needle : String) : Bool :=
  includesAux needle.data hay.data

/-- Proposition that needle occurs as a contiguous substring of hay. -/
def SubstrOf (needle hay : String) : Prop :=
  ∃ s t, hay.data = s ++ needle.data ++ t

theorem prefixAux_iff (n : List Char) : ∀ (h : List Char),
    prefixAux n h = true ↔ ∃ t, h = n ++ t := by
  induction n with
  | nil =>
    intro h
    simp [prefixAux]
  | cons a as ih =>
    intro h
    cases h with
    | nil =>
      simp [prefixAux]
    | cons b bs =>
      simp only [prefixAux, Bool.and_eq_true, beq_iff_eq, ih bs, List.cons_append,
        List.cons.injEq]
      constructor
      · rintro ⟨rfl, t, rfl⟩
        exact ⟨t, rfl, rfl⟩
      · rintro ⟨t, rfl, rfl⟩
        exact ⟨rfl, t, rfl⟩

theorem includesAux_iff (n : List Char) : ∀ (h : List Char),
    includesAux n h = true ↔ ∃ s t, h = s ++ n ++ t := by
  intro h
  induction h with
  | nil =>
    cases n with
    | nil => simp [includesAux]
    | cons a as =>
      simp only [includesAux, List.isEmpty_cons]
      constructor
      · intro hfalse
        cases hfalse
      · rintro ⟨s, t, hst⟩
        exact absurd hst.symm (by simp)
  | cons c t ih =>
    simp only [includesAux, Bool.or_eq_true, prefixAux_iff, ih]
    constructor
    · rintro (⟨u, hu⟩ | ⟨s, u, hu⟩)
      · exact ⟨[], u, by simpa using hu⟩
      · exact ⟨c :: s, u, by simp [hu]⟩
    · rintro ⟨s, u, hu⟩
      cases s with
      | nil =>
        exact Or.inl ⟨u, by simpa using hu⟩
      | cons d s =>
        simp only [List.cons_append, List.cons.injEq] at hu
        exact Or.inr ⟨s, u, hu.2⟩

theorem strIncludes_iff (hay needle : String) :
    strIncludes hay needle = true ↔ SubstrOf needle hay := by
  simp [strIncludes, SubstrOf, includesAux_iff]

/-- JavaScript String.prototype.toLowerCase, modelled per character over
the string data (Char.toLower lowercases the basic latin letters, which
is what the engine relies on). Defined by structural recursion over the
character list so that concrete instances evaluate inside the kernel. -/
def jsToLower (s : String) : String :=
  String.mk (s.data.map Char.toLower)

/-- JavaScript String.prototype.trim: strip leading and trailing
whitespace. -/
def jsTrim (s : String) : String :=
  String.mk (((s.data.dropWhile Char.isWhitespace).reverse.dropWhile
    Char.isWhitespace).reverse)

/-- A character counts for the regex class backslash-w: ASCII letters,
digits and underscore. Splitting on the complementary class backslash-W
is what the filter applies to the query. -/
def isWordChar (c : Char) : Bool :=
  c.isAlphanum || c == '_'

/-- Accumulating tokenizer: collects maximal runs of word characters.
The accumulator holds the current run in reverse. -/
def tokenizeAux : List Char → List Char → List String
  | [], acc => if acc.isEmpty then [] else [String.mk acc.reverse]
  | c :: cs, acc =>
    if isWordChar c then
      tokenizeAux cs (c :: acc)
    else if acc.isEmpty then
      tokenizeAux cs []
    else
      String.mk acc.reverse :: tokenizeAux cs []

/-- The non-empty tokens produced by JavaScript q.split(on the regex
backslash-W one-or-more-times): the maximal runs of word characters
of q. Empty strings produced by the split are discarded by the
word-truthiness test in the source, so they are not represented. -/
def wordTokens (q : String) : List String :=
  tokenizeAux q.data []

/-- One knowledge row, mirroring the PortfolioRow type of the source
(matching the Supabase / CSV schema). -/
structure PortfolioRow where
  project : String
  type : String
  title : Option String
  content : String
  tags : Option String
  role : Option String
  pillar : Option String
  medium : Option String
  aspect : Option String
  audience : Option String
  tools_methods : Option String
  one_liner : Option String
  is_highlight : Option Bool
  depth : Option String
deriving DecidableEq, Repr

/-- The fixed preferred content types (the PREFERRED_TYPES set of the
source). -/
def PREFERRED_TYPES : List String :=
  ["project_summary", "summary", "outcome", "method"]

/-- Source depthScore: overview scores 2, supporting_detail scores 1,
anything else or an absent depth scores 0, after lowercasing. -/
def depthScore (depth : Option String) : Nat :=
  let d := (depth.map jsToLower).getD ""
  if d = "overview" then 2
  else if d = "supporting_detail" then 1
  else 0

/-- Source MAX_HISTORY_MESSAGES. -/
def MAX_HISTORY_MESSAGES : Nat := 6

/-- The type-preference indicator computed inside the sort comparator of
scopeKnowledgeToMessage: 1 when the lowercased type is in
PREFERRED_TYPES, else 0. -/
def typePref (row : PortfolioRow) : Nat :=
  if PREFERRED_TYPES.contains (jsToLower row.type) then 1 else 0

/-- The composite sort key of the source comparator:
typePref times 2 plus depthScore. -/
def compositeScore (row : PortfolioRow) : Nat :=
  typePref row * 2 + depthScore row.depth

/-- The per-row match predicate of the filter inside
scopeKnowledgeToMessage, applied to the already-lowercased query q.
Facet values are lowercased with an empty-string default for absent
fields; an empty facet value is falsy in JavaScript, hence the non-empty
guards. Tags are matched by testing each word token of the query for
occurrence inside the tags value; the other facets are matched by
occurrence of the facet value inside the query. The content body is not
consulted. -/
def rowMatches (q : String) (row : PortfolioRow) : Bool :=
  let project := jsToLower row.project
  let title := (row.title.map jsToLower).getD ""
  let tags := (row.tags.map jsToLower).getD ""
  let pillar := (row.pillar.map jsToLower).getD ""
  let medium := (row.medium.map jsToLower).getD ""
  let audience := (row.audience.map jsToLower).getD ""
  let hitProject := project != "" && strIncludes q project
  let hitTitle := title != "" && strIncludes q title
  let hitTags := tags != "" && (wordTokens q).any (fun w => w != "" && strIncludes tags (jsToLower w))
  let hitPillar := pillar != "" && strIncludes q pillar
  let hitMedium := medium != "" && strIncludes q medium
  let hitAudience := audience != "" && strIncludes q audience
  hitProject || hitTitle || hitTags || hitPillar || hitMedium || hitAudience

/-- The fallback step of scopeKnowledgeToMessage: the matching rows, or
all rows when nothing matched. -/
def relevantRows (q : String) (rows : List PortfolioRow) : List PortfolioRow :=
  let matched := rows.filter (fun row => rowMatches q row)
  if matched.length > 0 then matched else rows

/-- The sort step of scopeKnowledgeToMessage: a stable descending sort
by compositeScore, modelling the stable JavaScript Array.prototype.sort
with comparator bScore minus aScore. -/
def rankRows (rows : List PortfolioRow) : List PortfolioRow :=
  rows.mergeSort (fun a b => decide (compositeScore b ≤ compositeScore a))

/-- Source scopeKnowledgeToMessage: empty input short-circuits to empty;
otherwise filter with fallback, rank, and keep the first maxRows rows
(the call in the POST handler uses the default maxRows of 12). -/
def scopeKnowledgeToMessage (message : String) (rows : List PortfolioRow)
    (maxRows : Nat) : List PortfolioRow :=
  if rows.isEmpty then []
  else (rankRows (relevantRows (jsToLower message) rows)).take maxRows

/-- One rendered row of buildContextText: the twelve labeled lines in
their fixed order, joined with newlines, with the exact placeholder of
the source for each absent optional field. -/
def renderRow (row : PortfolioRow) : String :=
  String.intercalate "\n"
    [ "PROJECT: " ++ row.project
    , "TYPE: " ++ row.type
    , "TITLE: " ++ (row.title.getD "(no title)")
    , "PILLAR: " ++ (row.pillar.getD "(none)")
    , "MEDIUM: " ++ (row.medium.getD "(none)")
    , "AUDIENCE: " ++ (row.audience.getD "(none)")
    , "TAGS: " ++ (row.tags.getD "(none)")
    , "ROLE: " ++ (row.role.getD "(unspecified)")
    , "ONE_LINER: " ++ (row.one_liner.getD "(none)")
    , "TOOLS_METHODS: " ++ (row.tools_methods.getD "(none)")
    , "DEPTH: " ++ (row.depth.getD "(none)")
    , "CONTENT: " ++ row.content ]

/-- Source buildContextText: the fixed sentinel on empty input,
otherwise the rendered rows joined with the fixed separator line. -/
def buildContextText (rows : List PortfolioRow) : String :=
  if rows.isEmpty then "No matching entries found in portfolio-knowledge."
  else String.intercalate "\n\n---\n\n" (rows.map renderRow)

/-- Outcome of one attempted collaborator fetch inside loadAllKnowledge:
the select call resolves with an error field, throws, or succeeds with a
possibly-null data array. -/
inductive FetchOutcome where
  | fetchError (e : String)
  | fetchThrow (e : String)
  | success (data : Option (List PortfolioRow))
deriving DecidableEq, Repr

/-- Whether the outcome is one of the two failure shapes. -/
def isFetchFailure : FetchOutcome → Bool
  | .fetchError _ => true
  | .fetchThrow _ => true
  | .success _ => false

/-- The module-level state read by loadAllKnowledge: whether the
Supabase client was initialized, and the knowledgeCache variable. -/
structure StoreState where
  hasClient : Bool
  cache : Option (List PortfolioRow)
deriving DecidableEq, Repr

/-- Result of one loadAllKnowledge call: the returned rows, the updated
module state, and the console diagnostics emitted (the side channel). -/
structure LoadResult where
  rows : List PortfolioRow
  state : StoreState
  logs : List String
deriving DecidableEq, Repr

/-- Source loadAllKnowledge. A missing client short-circuits to an empty
list with a warning; a populated cache is returned untouched; otherwise
the fetch outcome is inspected: an error field or a thrown exception
yields an empty list plus a console diagnostic and leaves the cache
unset, while success stores data (or an empty list when data is null)
in the cache and returns it. The timing log of the source is emitted
whenever the select call resolves without throwing. The Lean function is
total: no failure escapes as an exception. -/
def loadAllKnowledge (st : StoreState) (outcome : FetchOutcome) : LoadResult :=
  if st.hasClient = false then
    { rows := []
    , state := st
    , logs := ["[chat route] Supabase client not initialized; skipping knowledge fetch."] }
  else
    match st.cache with
    | some cached => { rows := cached, state := st, logs := [] }
    | none =>
      match outcome with
      | .fetchError e =>
        { rows := []
        , state := st
        , logs := ["[chat route] Supabase fetch time (ms):", "[chat route] Supabase error: " ++ e] }
      | .fetchThrow e =>
        { rows := []
        , state := st
        , logs := ["[chat route] Knowledge fetch failed: " ++ e] }
      | .success data =>
        let rows := data.getD []
        { rows := rows
        , state := { st with cache := some rows }
        , logs := ["[chat route] Supabase fetch time (ms):"] }

/-- A JavaScript value, as far as the history normalization observes it:
strings, numbers (modelled as integers; the route never does arithmetic
on them), booleans, null, undefined, arrays and plain objects. -/
inductive JSValue where
  | vstr (s : String)
  | vnum (n : Int)
  | vbool (b : Bool)
  | vnull
  | vundef
  | varr (elems : List JSValue)
  | vobj (fields : List (String × JSValue))

/-- Whether the value is null or undefined (the two values on which
property access throws and which the nullish-coalescing operator
replaces). -/
def isNullish : JSValue → Bool
  | .vnull => true
  | .vundef => true
  | _ => false

/-- Whether Array.isArray holds of the value. -/
def isArrayVal : JSValue → Bool
  | .varr _ => true
  | _ => false

/-- JavaScript property access m.k: throws a TypeError on null and
undefined, looks the key up on objects (undefined when absent), and
yields undefined on every other receiver (the route only reads the
role and content keys, which are not built-ins of any primitive). -/
def getField (v : JSValue) (k : String) : Except String JSValue :=
  match v with
  | .vnull => .error ("TypeError: cannot read properties of null, reading " ++ k)
  | .vundef => .error ("TypeError: cannot read properties of undefined, reading " ++ k)
  | .vobj fields => .ok (((fields.find? (fun f => f.1 == k)).map (fun f => f.2)).getD .vundef)
  | _ => .ok .vundef

mutual
/-- The JavaScript String(x) coercion for the values of the model. -/
def jsToString : JSValue → String
  | .vstr s => s
  | .vnum n => toString n
  | .vbool b => if b then "true" else "false"
  | .vnull => "null"
  | .vundef => "undefined"
  | .varr xs => jsArrToString xs
  | .vobj _ => "[object Object]"

/-- String coercion of an array: elements joined with commas, with null
and undefined elements rendered empty (Array.prototype.join). -/
def jsArrToString : List JSValue → String
  | [] => ""
  | [x] => jsElemToString x
  | x :: xs => jsElemToString x ++ "," ++ jsArrToString xs

/-- One element inside an array coercion. -/
def jsElemToString : JSValue → String
  | .vnull => ""
  | .vundef => ""
  | v => jsToString v
end

/-- The strict equality test m.role === the assistant literal. -/
def isAssistantRole : JSValue → Bool
  | .vstr s => s == "assistant"
  | _ => false

/-- One normalized conversation turn (the role and content pair built by
the POST handler). -/
structure ConversationMessage where
  role : String
  content : String
deriving DecidableEq, Repr

/-- The per-element body of the normalizing map in the POST handler:
read role and content off the raw element (property access may throw),
coerce the role by strict comparison with the assistant literal, and
coerce the nullish-coalesced content with String(). The content is NOT
trimmed here; trimming happens only inside the later filter test. -/
def normalizeElem (m : JSValue) : Except String ConversationMessage := do
  let roleV ← getField m "role"
  let contentV ← getField m "content"
  .ok { role := if isAssistantRole roleV then "assistant" else "user"
      , content := jsToString (if isNullish contentV then .vstr "" else contentV) }

/-- The map step over the raw history: JavaScript Array.prototype.map
runs the callback on every element in order, so a throw on any element
aborts the whole normalization. -/
def normalizeAll : List JSValue → Except String (List ConversationMessage)
  | [] => .ok []
  | m :: ms => do
    let msg ← normalizeElem m
    let rest ← normalizeAll ms
    .ok (msg :: rest)

/-- The normalization pipeline of the POST handler: map each raw element
to a role and content pair, then drop the pairs whose content is
whitespace-only (trimmed length zero). -/
def normalizeHistory (raw : List JSValue) : Except String (List ConversationMessage) := do
  let mapped ← normalizeAll raw
  .ok (mapped.filter (fun m => (jsTrim m.content).length > 0))

/-- The element list of an array value (empty for non-arrays; only
consulted behind an Array.isArray test). -/
def arrayElems : JSValue → List JSValue
  | .varr xs => xs
  | _ => []

/-- The history selection of the POST handler: body.history when it is
an array, else body.conversationHistory when that is an array, else the
empty array. The two arguments are the two field values read off the
request body. -/
def extractHistory (history conversationHistory : JSValue) : List JSValue :=
  if isArrayVal history then arrayElems history
  else if isArrayVal conversationHistory then arrayElems conversationHistory
  else []

/-- The history truncation of the POST handler: convo.slice of minus
MAX_HISTORY_MESSAGES when the list is longer than the bound, modelled by
dropping all but the last MAX_HISTORY_MESSAGES elements. -/
def truncateHistory (convo : List ConversationMessage) : List ConversationMessage :=
  if convo.length > MAX_HISTORY_MESSAGES then
    convo.drop (convo.length - MAX_HISTORY_MESSAGES)
  else convo

/-- A knowledge row as it actually arrives from the collaborator: the
source casts the fetched data to PortfolioRow without validation, so at
runtime every field may be null even where the TypeScript type says
string. Used to analyse which absences the scoping code guards. -/
structure RawRow where
  project : Option String
  type : Option String
  title : Option String
  content : Option String
  tags : Option String
  role : Option String
  pillar : Option String
  medium : Option String
  aspect : Option String
  audience : Option String
  tools_methods : Option String
  one_liner : Option String
  is_highlight : Option Bool
  depth : Option String
deriving DecidableEq, Repr

/-- The match predicate on raw rows: every facet read uses optional
chaining with an empty-string default, so absent facets are harmless
here. -/
def rowMatchesRaw (q : String) (row : RawRow) : Bool :=
  let project := (row.project.map jsToLower).getD ""
  let title := (row.title.map jsToLower).getD ""
  let tags := (row.tags.map jsToLower).getD ""
  let pillar := (row.pillar.map jsToLower).getD ""
  let medium := (row.medium.map jsToLower).getD ""
  let audience := (row.audience.map jsToLower).getD ""
  let hitProject := project != "" && strIncludes q project
  let hitTitle := title != "" && strIncludes q title
  let hitTags := tags != "" && (wordTokens q).any (fun w => w != "" && strIncludes tags (jsToLower w))
  let hitPillar := pillar != "" && strIncludes q pillar
  let hitMedium := medium != "" && strIncludes q medium
  let hitAudience := audience != "" && strIncludes q audience
  hitProject || hitTitle || hitTags || hitPillar || hitMedium || hitAudience

/-- The fallback step on raw rows. -/
def relevantRowsRaw (q : String) (rows : List RawRow) : List RawRow :=
  let matched := rows.filter (fun row => rowMatchesRaw q row)
  if matched.length > 0 then matched else rows

/-- The type-preference read of the sort comparator on a raw row: the
source lowercases a.type with NO null guard (unlike depthScore, which
nullish-coalesces), so a null type throws a TypeError. -/
def typePrefRaw (row : RawRow) : Except String Nat :=
  match row.type with
  | none => .error "TypeError: cannot read toLowerCase of null"
  | some t => .ok (if PREFERRED_TYPES.contains (jsToLower t) then 1 else 0)

/-- The composite sort key on a raw row, propagating the possible throw
of the unguarded type read. -/
def compositeScoreRaw (row : RawRow) : Except String Nat := do
  let tp ← typePrefRaw row
  .ok (tp * 2 + depthScore row.depth)

/-- Scoring of every row that reaches the sort. The JavaScript engine
evaluates the scores lazily inside the comparator, on whichever pairs
Array.prototype.sort probes; this model evaluates each reachable score
once up front. On inputs where every score evaluation succeeds (the
situation the presence invariant guarantees) the two coincide. -/
def scoreRowsRaw : List RawRow → Except String (List (RawRow × Nat))
  | [] => .ok []
  | r :: rs => do
    let s ← compositeScoreRaw r
    let rest ← scoreRowsRaw rs
    .ok ((r, s) :: rest)

/-- The whole scoping pipeline on raw rows, with the possible TypeError
of the unguarded type read surfaced in the error branch. -/
def scopeKnowledgeRaw (message : String) (rows : List RawRow)
    (maxRows : Nat) : Except String (List RawRow) :=
  if rows.isEmpty then .ok []
  else do
    let scored ← scoreRowsRaw (relevantRowsRaw (jsToLower message) rows)
    .ok (((scored.mergeSort (fun a b => decide (b.2 ≤ a.2))).map (fun p => p.1)).take maxRows)

/-- A labeled output line, written the way the spec describes the
serializer: a label followed by the value. -/
def labeledLine (label value : String) : String :=
  label ++ ": " ++ value

/-- The spec-side treatment of an optional facet: the value when
present, an explicit placeholder token when absent. -/
def orPlaceholder (value : Option String) (placeholder : String) : String :=
  value.getD placeholder

/-- The spec-side rendering of one row: the fixed ordered list of
labeled lines PROJECT, TYPE, TITLE, PILLAR, MEDIUM, AUDIENCE, TAGS,
ROLE, ONE_LINER, TOOLS_METHODS, DEPTH, CONTENT, each absent optional
facet replaced by its placeholder token. -/
def specRenderRow (row : PortfolioRow) : String :=
  String.intercalate "\n"
    [ labeledLine "PROJECT" row.project
    , labeledLine "TYPE" row.type
    , labeledLine "TITLE" (orPlaceholder row.title "(no title)")
    , labeledLine "PILLAR" (orPlaceholder row.pillar "(none)")
    , labeledLine "MEDIUM" (orPlaceholder row.medium "(none)")
    , labeledLine "AUDIENCE" (orPlaceholder row.audience "(none)")
    , labeledLine "TAGS" (orPlaceholder row.tags "(none)")
    , labeledLine "ROLE" (orPlaceholder row.role "(unspecified)")
    , labeledLine "ONE_LINER" (orPlaceholder row.one_liner "(none)")
    , labeledLine "TOOLS_METHODS" (orPlaceholder row.tools_methods "(none)")
    , labeledLine "DEPTH" (orPlaceholder row.depth "(none)")
    , labeledLine "CONTENT" row.content ]

theorem renderRow_eq_specRenderRow (row : PortfolioRow) :
    renderRow row = specRenderRow row := by
  unfold renderRow specRenderRow labeledLine orPlaceholder
  exact congrArg (String.intercalate "\n") rfl

/-- C5. ContextSerializer output shape: the empty row sequence renders
to the fixed sentinel string, and a non-empty row sequence renders to
the spec-described per-row blocks (the fixed ordered labeled lines with
explicit placeholders for absent facets) joined with the fixed separator
line. -/
theorem serializer_output_shape :
    buildContextText [] = "No matching entries found in portfolio-knowledge."
    ∧ ∀ rows : List PortfolioRow, rows ≠ [] →
        buildContextText rows =
          String.intercalate "\n\n---\n\n" (rows.map specRenderRow) := by
  constructor
  · rfl
  · intro rows hne
    have hIsE : rows.isEmpty = false := by
      cases rows with
      | nil => exact absurd rfl hne
      | cons a l => rfl
    have hfun : renderRow = specRenderRow := funext renderRow_eq_specRenderRow
    simp [buildContextText, hIsE, hfun]

/-- Witness for the serializer theorem at a concrete one-row input. -/
theorem serializer_output_shape_witness :
    buildContextText
        [{ project := "jascore_1_0", type := "summary", title := some "JasCore",
           content := "body text", tags := none, role := none, pillar := none,
           medium := none, aspect := none, audience := none, tools_methods := none,
           one_liner := none, is_highlight := none, depth := some "overview" }] =
      String.intercalate "\n\n---\n\n"
        ([{ project := "jascore_1_0", type := "summary", title := some "JasCore",
            content := "body text", tags := none, role := none, pillar := none,
            medium := none, aspect := none, audience := none, tools_methods := none,
            one_liner := none, is_highlight := none, depth := some "overview" }].map
          specRenderRow) :=
  serializer_output_shape.2 _ (by decide)

/-- C2. Fallback policy: for a non-empty row set, when no row matches
the filtered set handed onward is the full set, the set handed onward is
never empty, and the scoping pipeline is exactly rank-then-truncate on
that set; an empty row set scopes to the empty result. -/
theorem scope_fallback_policy :
    ∀ (message : String) (rows : List PortfolioRow),
      (rows ≠ [] →
        (rows.filter (fun row => rowMatches (jsToLower message) row) = [] →
          relevantRows (jsToLower message) rows = rows)
        ∧ relevantRows (jsToLower message) rows ≠ []
        ∧ scopeKnowledgeToMessage message rows 12 =
            (rankRows (relevantRows (jsToLower message) rows)).take 12)
      ∧ scopeKnowledgeToMessage message [] 12 = [] := by
  intro message rows
  refine ⟨?_, rfl⟩
  intro hne
  have hIsE : rows.isEmpty = false := by
    cases rows with
    | nil => exact absurd rfl hne
    | cons a l => rfl
  refine ⟨?_, ?_, ?_⟩
  · intro hfil
    simp [relevantRows, hfil]
  · simp only [relevantRows]
    split
    · next hpos => exact List.ne_nil_of_length_pos hpos
    · exact hne
  · simp [scopeKnowledgeToMessage, hIsE]

/-- Witness for the fallback theorem: a query matching nothing in a
one-row corpus falls back to the full corpus. -/
theorem scope_fallback_policy_witness :
    ([{ project := "zz", type := "note", title := none, content := "body",
        tags := none, role := none, pillar := none, medium := none,
        aspect := none, audience := none, tools_methods := none,
        one_liner := none, is_highlight := none,
        depth := none }] : List PortfolioRow).filter
          (fun row => rowMatches ((jsToLower "hello")) row) = []
    ∧ relevantRows ((jsToLower "hello"))
        [{ project := "zz", type := "note", title := none, content := "body",
           tags := none, role := none, pillar := none, medium := none,
           aspect := none, audience := none, tools_methods := none,
           one_liner := none, is_highlight := none, depth := none }] =
        [{ project := "zz", type := "note", title := none, content := "body",
           tags := none, role := none, pillar := none, medium := none,
           aspect := none, audience := none, tools_methods := none,
           one_liner := none, is_highlight := none, depth := none }] := by
  refine ⟨by decide, ?_⟩
  exact ((scope_fallback_policy "hello" _).1 (by decide)).1 (by decide)

/-- C4. Bounded result set: the scoped, ranked output handed to the
serializer never exceeds the fixed bound of 12 rows, for every query and
every corpus. -/
theorem scope_bounded_result :
    ∀ (message : String) (rows : List PortfolioRow),
      (scopeKnowledgeToMessage message rows 12).length ≤ 12 := by
  intro message rows
  unfold scopeKnowledgeToMessage
  split
  · simp
  · exact List.length_take_le _ _

/-- C7. History truncation: the truncated history never exceeds
MAX_HISTORY_MESSAGES, is always a suffix of the normalized sequence
(hence keeps relative order), has exactly MAX_HISTORY_MESSAGES entries
when at least that many were available, and is the identity otherwise. -/
theorem history_truncation_suffix :
    ∀ convo : List ConversationMessage,
      (truncateHistory convo).length ≤ MAX_HISTORY_MESSAGES
      ∧ (truncateHistory convo) <:+ convo
      ∧ (MAX_HISTORY_MESSAGES ≤ convo.length →
          (truncateHistory convo).length = MAX_HISTORY_MESSAGES)
      ∧ (convo.length ≤ MAX_HISTORY_MESSAGES → truncateHistory convo = convo) := by
  intro convo
  by_cases h : convo.length > MAX_HISTORY_MESSAGES
  · have hres : truncateHistory convo = convo.drop (convo.length - MAX_HISTORY_MESSAGES) := by
      simp [truncateHistory, h]
    refine ⟨?_, ?_, ?_, ?_⟩
    · rw [hres, List.length_drop]
      omega
    · rw [hres]
      exact List.drop_suffix _ _
    · intro _
      rw [hres, List.length_drop]
      omega
    · intro hle
      omega
  · have hres : truncateHistory convo = convo := by
      simp [truncateHistory, h]
    refine ⟨?_, ?_, ?_, ?_⟩
    · rw [hres]; omega
    · rw [hres]
    · intro hge
      rw [hres]; omega
    · intro _
      exact hres

/-- Witness for the truncation theorem: nine valid messages truncate to
exactly the last six. -/
theorem history_truncation_suffix_witness :
    MAX_HISTORY_MESSAGES ≤
        ([⟨"user", "m1"⟩, ⟨"assistant", "m2"⟩, ⟨"user", "m3"⟩,
          ⟨"assistant", "m4"⟩, ⟨"user", "m5"⟩, ⟨"assistant", "m6"⟩,
          ⟨"user", "m7"⟩, ⟨"assistant", "m8"⟩,
          ⟨"user", "m9"⟩] : List ConversationMessage).length
    ∧ (truncateHistory
        [⟨"user", "m1"⟩, ⟨"assistant", "m2"⟩, ⟨"user", "m3"⟩,
         ⟨"assistant", "m4"⟩, ⟨"user", "m5"⟩, ⟨"assistant", "m6"⟩,
         ⟨"user", "m7"⟩, ⟨"assistant", "m8"⟩, ⟨"user", "m9"⟩]).length =
      MAX_HISTORY_MESSAGES :=
  ⟨by decide,
   (history_truncation_suffix
     [⟨"user", "m1"⟩, ⟨"assistant", "m2"⟩, ⟨"user", "m3"⟩,
      ⟨"assistant", "m4"⟩, ⟨"user", "m5"⟩, ⟨"assistant", "m6"⟩,
      ⟨"user", "m7"⟩, ⟨"assistant", "m8"⟩, ⟨"user", "m9"⟩]).2.2.1 (by decide)⟩

/-- C8. KnowledgeStore failure recovery: a missing client yields the
empty row list with a diagnostic, and with an unpopulated cache any
fetch failure (error field or thrown exception) also yields the empty
row list, emits a diagnostic on the side channel, and leaves the module
state untouched. The model is a total function, so no failure escapes
as an exception. -/
theorem store_failure_recovery :
    ∀ (st : StoreState) (outcome : FetchOutcome),
      (st.hasClient = false →
        (loadAllKnowledge st outcome).rows = []
        ∧ (loadAllKnowledge st outcome).logs ≠ [])
      ∧ (st.cache = none → isFetchFailure outcome = true →
        (loadAllKnowledge st outcome).rows = []
        ∧ (loadAllKnowledge st outcome).logs ≠ []
        ∧ (loadAllKnowledge st outcome).state = st) := by
  intro st outcome
  constructor
  · intro h
    simp [loadAllKnowledge, h]
  · intro hc hf
    cases hcl : st.hasClient
    · simp [loadAllKnowledge, hcl]
    · cases outcome with
      | fetchError e => simp [loadAllKnowledge, hcl, hc]
      | fetchThrow e => simp [loadAllKnowledge, hcl, hc]
      | success data => simp [isFetchFailure] at hf

/-- Witness for the store theorem: a thrown fetch with an initialized
client and cold cache returns no rows, logs the failure, and leaves the
state unchanged. -/
theorem store_failure_recovery_witness :
    (loadAllKnowledge ⟨true, none⟩ (.fetchThrow "network down")).rows = []
    ∧ (loadAllKnowledge ⟨true, none⟩ (.fetchThrow "network down")).logs ≠ []
    ∧ (loadAllKnowledge ⟨true, none⟩ (.fetchThrow "network down")).state = ⟨true, none⟩ :=
  (store_failure_recovery ⟨true, none⟩ (.fetchThrow "network down")).2 rfl rfl

/-- Spec-side facet hit: the facet is present, its lowercased value is
non-empty, and that value occurs as a substring of the (lowercased)
query. -/
def FacetHitP (q : String) (facet : Option String) : Prop :=
  ∃ v, facet = some v ∧ jsToLower v ≠ "" ∧ SubstrOf (jsToLower v) q

/-- Spec-side tags hit, in the amended form: the tags facet is present
and non-empty after lowercasing, and some non-empty word-run token of
the query occurs, lowercased, inside the lowercased tags value. -/
def TagsHitP (q : String) (tags : Option String) : Prop :=
  ∃ t, tags = some t ∧ jsToLower t ≠ "" ∧
    ∃ w ∈ wordTokens q, w ≠ "" ∧ SubstrOf (jsToLower w) (jsToLower t)

theorem facet_hit_req (q p : String) :
    ((jsToLower p != "") && strIncludes q (jsToLower p)) = true ↔
      FacetHitP q (some p) := by
  simp [FacetHitP, strIncludes_iff, bne_iff_ne]

theorem facet_hit_opt (q : String) (facet : Option String) :
    (((facet.map jsToLower).getD "" != "")
        && strIncludes q ((facet.map jsToLower).getD "")) = true ↔
      FacetHitP q facet := by
  cases facet with
  | none => simp [FacetHitP]
  | some v => simpa using facet_hit_req q v

theorem tags_hit_opt (q : String) (tags : Option String) :
    (((tags.map jsToLower).getD "" != "")
        && (wordTokens q).any
            (fun w => w != "" && strIncludes ((tags.map jsToLower).getD "") (jsToLower w))) = true ↔
      TagsHitP q tags := by
  cases tags with
  | none => simp [TagsHitP]
  | some t =>
    simp [TagsHitP, strIncludes_iff, bne_iff_ne, List.any_eq_true, and_assoc]

/-- C1 (amended). RelevanceFilter match rule: a row is judged relevant
if and only if some present, non-empty lowercased facet value among
project, title, pillar, medium, audience occurs as a substring of the
lowercased query, or, for the tags facet specifically, some non-empty
token of the lowercased query delimited by runs of non-word characters
(the regex class backslash-W, rather than whitespace) occurs, lowercased,
as a substring of the lowercased tags value; and the content body never
influences the verdict. -/
theorem relevance_match_rule :
    ∀ (message : String) (row : PortfolioRow),
      (rowMatches (jsToLower message) row = true ↔
        (FacetHitP (jsToLower message) (some row.project)
          ∨ FacetHitP (jsToLower message) row.title
          ∨ TagsHitP (jsToLower message) row.tags
          ∨ FacetHitP (jsToLower message) row.pillar
          ∨ FacetHitP (jsToLower message) row.medium
          ∨ FacetHitP (jsToLower message) row.audience))
      ∧ ∀ c : String,
          rowMatches (jsToLower message) { row with content := c } =
            rowMatches (jsToLower message) row := by
  intro message row
  constructor
  · simp only [rowMatches, Bool.or_eq_true]
    rw [facet_hit_req, facet_hit_opt, tags_hit_opt, facet_hit_opt, facet_hit_opt,
      facet_hit_opt]
    tauto
  · intro c
    rfl

/-- Whitespace tokenizer used to state claim C1 literally: maximal runs
of non-whitespace characters. -/
def wsTokenizeAux : List Char → List Char → List String
  | [], acc => if acc.isEmpty then [] else [String.mk acc.reverse]
  | c :: cs, acc =>
    if Char.isWhitespace c then
      if acc.isEmpty then wsTokenizeAux cs []
      else String.mk acc.reverse :: wsTokenizeAux cs []
    else wsTokenizeAux cs (c :: acc)

/-- The whitespace-delimited tokens of a string. -/
def wsTokens (q : String) : List String :=
  wsTokenizeAux q.data []

/-- The match rule exactly as claim C1 words it: identical to the
source predicate except that the tags facet is probed with
whitespace-delimited query tokens. -/
def claimRowMatches (q : String) (row : PortfolioRow) : Bool :=
  let project := jsToLower row.project
  let title := (row.title.map jsToLower).getD ""
  let tags := (row.tags.map jsToLower).getD ""
  let pillar := (row.pillar.map jsToLower).getD ""
  let medium := (row.medium.map jsToLower).getD ""
  let audience := (row.audience.map jsToLower).getD ""
  let hitProject := project != "" && strIncludes q project
  let hitTitle := title != "" && strIncludes q title
  let hitTags := tags != "" && (wsTokens q).any (fun w => w != "" && strIncludes tags (jsToLower w))
  let hitPillar := pillar != "" && strIncludes q pillar
  let hitMedium := medium != "" && strIncludes q medium
  let hitAudience := audience != "" && strIncludes q audience
  hitProject || hitTitle || hitTags || hitPillar || hitMedium || hitAudience

/-- Counterexample to claim C1 as stated: on the query ui-design and a
row whose only usable facet is the tags value design, the source filter
matches (the regex split on non-word characters breaks the query into
the tokens ui and design, and design occurs in the tags value), while
the whitespace-delimited reading of the claim does not (the only
whitespace token is ui-design, which does not occur in design). -/
theorem relevance_match_rule_counterexample :
    rowMatches (jsToLower "ui-design")
        { project := "zz", type := "note", title := none, content := "body",
          tags := some "design", role := none, pillar := none, medium := none,
          aspect := none, audience := none, tools_methods := none,
          one_liner := none, is_highlight := none, depth := none } = true
    ∧ claimRowMatches (jsToLower "ui-design")
        { project := "zz", type := "note", title := none, content := "body",
          tags := some "design", role := none, pillar := none, medium := none,
          aspect := none, audience := none, tools_methods := none,
          one_liner := none, is_highlight := none, depth := none } = false := by
  decide

/-- The depth tier exactly as the spec words it: overview maps to 2,
supporting_detail to 1, anything else or absent to 0, matched
case-insensitively. -/
def specDepthTier (depth : Option String) : Nat :=
  match depth with
  | none => 0
  | some d =>
    if jsToLower d = "overview" then 2
    else if jsToLower d = "supporting_detail" then 1
    else 0

theorem pairwise_score_eq {k : Nat} :
    ∀ {l : List PortfolioRow}, (∀ x ∈ l, compositeScore x = k) →
      l.Pairwise (fun a b => decide (compositeScore b ≤ compositeScore a) = true) := by
  intro l
  induction l with
  | nil => intro _; exact List.Pairwise.nil
  | cons a l ih =>
    intro h
    refine List.Pairwise.cons ?_ (ih ?_)
    · intro b hb
      have ha := h a (List.mem_cons_self a l)
      have hb2 := h b (List.mem_cons_of_mem a hb)
      simp [ha, hb2]
    · intro x hx
      exact h x (List.mem_cons_of_mem a hx)

theorem compositeScore_le_four (row : PortfolioRow) : compositeScore row ≤ 4 := by
  have h1 : typePref row ≤ 1 := by
    unfold typePref
    split <;> omega
  have h2 : depthScore row.depth ≤ 2 := by
    simp only [depthScore]
    split
    · omega
    · split <;> omega
  unfold compositeScore
  omega

/-- C3. PriorityRanker ordering: every row is scored by the composite
of the type tier (2 for a preferred content type compared after
lowercasing, else 0) and the spec depth tier; the ranked output is
sorted by composite score descending; rows of equal composite score
keep their input relative order (for each score value, the rows holding
it appear in the ranked output exactly as they appear in the input); a
row with contentType summary and depth overview scores the maximal 4. -/
theorem ranker_stable_ordering :
    ∀ rows : List PortfolioRow,
      (rankRows rows).Pairwise (fun a b => compositeScore b ≤ compositeScore a)
      ∧ (∀ k : Nat,
          (rankRows rows).filter (fun r => compositeScore r == k) =
            rows.filter (fun r => compositeScore r == k))
      ∧ (∀ row : PortfolioRow, compositeScore row =
          (if (jsToLower row.type) ∈ PREFERRED_TYPES then 2 else 0) + specDepthTier row.depth)
      ∧ (∀ row : PortfolioRow, row.type = "summary" → row.depth = some "overview" →
          compositeScore row = 4)
      ∧ (∀ row : PortfolioRow, compositeScore row ≤ 4) := by
  have trans : ∀ (a b c : PortfolioRow),
      (fun a b => decide (compositeScore b ≤ compositeScore a)) a b →
      (fun a b => decide (compositeScore b ≤ compositeScore a)) b c →
      (fun a b => decide (compositeScore b ≤ compositeScore a)) a c := by
    intro a b c hab hbc
    simp only [decide_eq_true_eq] at *
    omega
  have total : ∀ (a b : PortfolioRow),
      ((fun a b => decide (compositeScore b ≤ compositeScore a)) a b
        || (fun a b => decide (compositeScore b ≤ compositeScore a)) b a) = true := by
    intro a b
    rcases Nat.le_total (compositeScore b) (compositeScore a) with h | h <;> simp [h]
  intro rows
  refine ⟨?_, ?_, ?_, ?_, compositeScore_le_four⟩
  · have hs := List.sorted_mergeSort trans total rows
    exact hs.imp (fun h => by simpa using h)
  · intro k
    have hall : ∀ x ∈ rows.filter (fun r => compositeScore r == k), compositeScore x = k := by
      intro x hx
      have := (List.mem_filter.mp hx).2
      simpa using this
    have hpair := pairwise_score_eq hall
    have hsub : List.Sublist (rows.filter (fun r => compositeScore r == k)) rows :=
      List.filter_sublist rows
    have hstab := List.sublist_mergeSort trans total hpair hsub
    have hff : (rows.filter (fun r => compositeScore r == k)).filter
        (fun r => compositeScore r == k) = rows.filter (fun r => compositeScore r == k) := by
      refine List.filter_eq_self.mpr ?_
      intro a ha
      exact (List.mem_filter.mp ha).2
    have h2 : List.Sublist (rows.filter (fun r => compositeScore r == k))
        ((rankRows rows).filter (fun r => compositeScore r == k)) := by
      have := hstab.filter (fun r => compositeScore r == k)
      rwa [hff] at this
    have hperm : List.Perm ((rankRows rows).filter (fun r => compositeScore r == k))
        (rows.filter (fun r => compositeScore r == k)) :=
      (List.mergeSort_perm rows _).filter _
    exact (h2.eq_of_length hperm.length_eq.symm).symm
  · intro row
    unfold compositeScore typePref
    have hdep : depthScore row.depth = specDepthTier row.depth := by
      cases hd : row.depth with
      | none => simp [depthScore, specDepthTier]
      | some d => simp [depthScore, specDepthTier]
    by_cases hmem : (jsToLower row.type) ∈ PREFERRED_TYPES
    · have : PREFERRED_TYPES.contains (jsToLower row.type) = true := by
        simpa [List.contains] using List.elem_eq_true_of_mem hmem
      rw [this, hdep]
      simp [hmem]
    · have : PREFERRED_TYPES.contains (jsToLower row.type) = false := by
        rcases Bool.eq_false_or_eq_true (PREFERRED_TYPES.contains (jsToLower row.type)) with ht | hf
        · exact absurd (by simpa [List.contains, List.elem_iff] using ht) hmem
        · exact hf
      rw [this, hdep]
      simp [hmem]
  · intro row h1 h2
    rw [compositeScore, typePref, h1, h2]
    decide

/-- Witness for the ranker theorem: the concrete summary and overview
row scores the maximal 4. -/
theorem ranker_stable_ordering_witness :
    compositeScore
      { project := "jascore_1_0", type := "summary", title := some "JasCore",
        content := "c", tags := none, role := none, pillar := none,
        medium := none, aspect := none, audience := none, tools_methods := none,
        one_liner := none, is_highlight := none, depth := some "overview" } = 4 :=
  (ranker_stable_ordering []).2.2.2.1 _ rfl rfl

theorem getField_ok (m : JSValue) (k : String) (h : isNullish m = false) :
    ∃ v, getField m k = .ok v := by
  cases m with
  | vnull => simp [isNullish] at h
  | vundef => simp [isNullish] at h
  | vobj fields => exact ⟨_, rfl⟩
  | vstr s => exact ⟨_, rfl⟩
  | vnum n => exact ⟨_, rfl⟩
  | vbool b => exact ⟨_, rfl⟩
  | varr xs => exact ⟨_, rfl⟩

theorem normalizeElem_ok (m : JSValue) (h : isNullish m = false) :
    ∃ msg, normalizeElem m = .ok msg := by
  obtain ⟨rv, hrv⟩ := getField_ok m "role" h
  obtain ⟨cv, hcv⟩ := getField_ok m "content" h
  exact ⟨{ role := if isAssistantRole rv then "assistant" else "user"
         , content := jsToString (if isNullish cv then JSValue.vstr "" else cv) },
    by simp [normalizeElem, hrv, hcv, Bind.bind, Except.bind]⟩

theorem isAssistantRole_iff (v : JSValue) :
    isAssistantRole v = true ↔ v = JSValue.vstr "assistant" := by
  cases v <;> simp [isAssistantRole]

/-- C6 (amended). HistoryNormalizer element handling, for any raw
element on which property access does not throw (anything but null and
undefined): the role becomes assistant exactly when the role field is
exactly the string assistant and user otherwise; the content is the
String() coercion of the nullish-coalesced content field, kept verbatim
and NOT trimmed (a string content field is preserved character for
character); trimming is applied only to decide the drop test, and the
element is dropped exactly when its content is whitespace-only. -/
theorem history_normalizer_elements :
    ∀ m : JSValue, isNullish m = false →
      ∃ roleV contentV msg,
        getField m "role" = .ok roleV
        ∧ getField m "content" = .ok contentV
        ∧ normalizeElem m = .ok msg
        ∧ (msg.role = "assistant" ↔ roleV = JSValue.vstr "assistant")
        ∧ (roleV ≠ JSValue.vstr "assistant" → msg.role = "user")
        ∧ msg.content = jsToString (if isNullish contentV then JSValue.vstr "" else contentV)
        ∧ (∀ c : String, contentV = JSValue.vstr c → msg.content = c)
        ∧ normalizeHistory [m] =
            .ok (if (jsTrim msg.content).length > 0 then [msg] else []) := by
  intro m h
  obtain ⟨rv, hrv⟩ := getField_ok m "role" h
  obtain ⟨cv, hcv⟩ := getField_ok m "content" h
  have hne : normalizeElem m = .ok
      { role := if isAssistantRole rv then "assistant" else "user"
      , content := jsToString (if isNullish cv then JSValue.vstr "" else cv) } := by
    simp [normalizeElem, hrv, hcv, Bind.bind, Except.bind]
  refine ⟨rv, cv,
    { role := if isAssistantRole rv then "assistant" else "user"
    , content := jsToString (if isNullish cv then JSValue.vstr "" else cv) },
    hrv, hcv, hne, ?_, ?_, rfl, ?_, ?_⟩
  · by_cases hr : isAssistantRole rv = true
    · simp only [hr, if_true]
      simp [(isAssistantRole_iff rv).mp hr]
    · have hrn : rv ≠ JSValue.vstr "assistant" :=
        fun he => hr ((isAssistantRole_iff rv).mpr he)
      have hrf : isAssistantRole rv = false := by
        rcases Bool.eq_false_or_eq_true (isAssistantRole rv) with ht | hf
        · exact absurd ht hr
        · exact hf
      simp only [hrf, if_false]
      constructor
      · intro hu
        exact absurd hu (by decide)
      · intro he
        exact absurd he hrn
  · intro hne2
    have hrf : isAssistantRole rv = false := by
      rcases Bool.eq_false_or_eq_true (isAssistantRole rv) with ht | hf
      · exact absurd ((isAssistantRole_iff rv).mp ht) hne2
      · exact hf
    simp [hrf]
  · intro c hc
    subst hc
    simp [isNullish, jsToString]
  · simp only [normalizeHistory, normalizeAll, hne, Bind.bind, Except.bind]
    simp [List.filter_cons]

/-- Witness for the element-handling theorem at a concrete element with
an unrecognized role and whitespace-padded content. -/
theorem history_normalizer_elements_witness :
    ∃ roleV contentV msg,
      getField (JSValue.vobj [("role", JSValue.vstr "system"),
          ("content", JSValue.vstr " x ")]) "role" = .ok roleV
      ∧ getField (JSValue.vobj [("role", JSValue.vstr "system"),
          ("content", JSValue.vstr " x ")]) "content" = .ok contentV
      ∧ normalizeElem (JSValue.vobj [("role", JSValue.vstr "system"),
          ("content", JSValue.vstr " x ")]) = .ok msg
      ∧ (msg.role = "assistant" ↔ roleV = JSValue.vstr "assistant")
      ∧ (roleV ≠ JSValue.vstr "assistant" → msg.role = "user")
      ∧ msg.content = jsToString (if isNullish contentV then JSValue.vstr "" else contentV)
      ∧ (∀ c : String, contentV = JSValue.vstr c → msg.content = c)
      ∧ normalizeHistory [JSValue.vobj [("role", JSValue.vstr "system"),
          ("content", JSValue.vstr " x ")]] =
            .ok (if (jsTrim msg.content).length > 0 then [msg] else []) :=
  history_normalizer_elements
    (JSValue.vobj [("role", JSValue.vstr "system"), ("content", JSValue.vstr " x ")]) rfl

/-- Counterexample to claim C6 as stated: the normalized content of an
element whose content field is the string with value space-h-i-space is
kept verbatim as that padded string; it is not trimmed (its trim would
be the two-character string hi). Trimming is applied only inside the
drop test. -/
theorem history_normalizer_counterexample :
    normalizeHistory
        [JSValue.vobj [("role", JSValue.vstr "user"), ("content", JSValue.vstr " hi ")]] =
      .ok [{ role := "user", content := " hi " }]
    ∧ jsTrim " hi " = "hi"
    ∧ (" hi " : String) ≠ "hi" := by
  refine ⟨?_, by decide, by decide⟩
  simp [normalizeHistory, normalizeAll, normalizeElem, getField, isNullish, isAssistantRole,
    jsToString, Bind.bind, Except.bind, List.filter_cons, jsTrim]

theorem normalizeAll_ok : ∀ (raw : List JSValue),
    (∀ m ∈ raw, isNullish m = false) → ∃ msgs, normalizeAll raw = .ok msgs := by
  intro raw
  induction raw with
  | nil =>
    intro _
    exact ⟨[], rfl⟩
  | cons m ms ih =>
    intro hall
    obtain ⟨msg, hmsg⟩ := normalizeElem_ok m (hall m (List.mem_cons_self m ms))
    obtain ⟨rest, hrest⟩ := ih (fun x hx => hall x (List.mem_cons_of_mem m hx))
    exact ⟨msg :: rest, by simp [normalizeAll, hmsg, hrest, Bind.bind, Except.bind]⟩

/-- C9 (amended). Malformed history input: a history value that is not
an array (with the conversationHistory fallback also not an array) is
treated as an empty history; and for every history array whose elements
are all property-accessible values (anything but null and undefined,
including objects missing the role or content fields and primitive
elements), normalization recovers locally via coercion and defaulting
and never raises an error. A null or undefined element, by contrast,
makes the property access inside the normalizing map throw a TypeError,
which is caught only by the route-level try/catch. -/
theorem malformed_history_recovery :
    (∀ h ch : JSValue, isArrayVal h = false → isArrayVal ch = false →
        extractHistory h ch = [])
    ∧ (∀ raw : List JSValue, (∀ m ∈ raw, isNullish m = false) →
        ∃ msgs, normalizeHistory raw = .ok msgs) := by
  constructor
  · intro h ch hh hch
    simp [extractHistory, hh, hch]
  · intro raw hall
    obtain ⟨msgs, hm⟩ := normalizeAll_ok raw hall
    exact ⟨msgs.filter (fun m => (jsTrim m.content).length > 0),
      by simp [normalizeHistory, hm, Bind.bind, Except.bind]⟩

/-- Witness for the malformed-history theorem: a non-array history with
a null conversationHistory extracts to empty, and an array of a number
and a role-only object normalizes without error. -/
theorem malformed_history_recovery_witness :
    extractHistory (JSValue.vstr "nope") JSValue.vnull = []
    ∧ ∃ msgs, normalizeHistory
        [JSValue.vnum 3, JSValue.vobj [("role", JSValue.vstr "x")]] = .ok msgs :=
  ⟨malformed_history_recovery.1 _ _ rfl rfl,
   malformed_history_recovery.2 _ (by decide)⟩

/-- Counterexample to claim C9 as stated: a history array containing
the arbitrary element null makes the normalization throw (the property
access m.role on null raises a TypeError), rather than recovering
locally; and a non-array history value is not treated as an empty
history when the conversationHistory fallback is an array. -/
theorem malformed_history_counterexample :
    normalizeHistory [JSValue.vnull] =
      .error "TypeError: cannot read properties of null, reading role"
    ∧ extractHistory (JSValue.vstr "oops") (JSValue.varr [JSValue.vobj []]) =
        [JSValue.vobj []] :=
  ⟨rfl, rfl⟩

theorem relevantRowsRaw_subset (q : String) (rows : List RawRow) :
    ∀ x ∈ relevantRowsRaw q rows, x ∈ rows := by
  intro x hx
  simp only [relevantRowsRaw] at hx
  split at hx
  · exact (List.mem_filter.mp hx).1
  · exact hx

theorem scoreRowsRaw_ok : ∀ (l : List RawRow), (∀ r ∈ l, r.type.isSome = true) →
    ∃ out, scoreRowsRaw l = .ok out := by
  intro l
  induction l with
  | nil =>
    intro _
    exact ⟨[], rfl⟩
  | cons r rs ih =>
    intro hall
    have hr := hall r (List.mem_cons_self r rs)
    obtain ⟨t, ht⟩ := Option.isSome_iff_exists.mp hr
    obtain ⟨rest, hrest⟩ := ih (fun x hx => hall x (List.mem_cons_of_mem r hx))
    refine ⟨(r, (if PREFERRED_TYPES.contains (jsToLower t) then 1 else 0) * 2
        + depthScore r.depth) :: rest, ?_⟩
    simp [scoreRowsRaw, compositeScoreRaw, typePrefRaw, ht, hrest, Bind.bind, Except.bind]

/-- C10. Implicit ranking precondition: whenever every row carries a
present contentType string (the data-model invariant), the whole
filter-and-rank pipeline on raw rows is total and never reaches its
error state; the depth facet is guarded for absence (an absent depth
scores 0), while the unguarded lowercasing of the type field is exactly
what errors on a row whose type is absent. -/
theorem ranking_presence_total :
    ∀ (message : String) (rows : List RawRow),
      (∀ r ∈ rows, r.type.isSome = true) →
      (∃ out, scopeKnowledgeRaw message rows 12 = .ok out)
      ∧ depthScore none = 0
      ∧ (∀ r : RawRow, r.type = none → ∃ e, compositeScoreRaw r = .error e) := by
  intro message rows hall
  refine ⟨?_, rfl, ?_⟩
  · by_cases hne : rows.isEmpty
    · exact ⟨[], by simp [scopeKnowledgeRaw, hne]⟩
    · have hsub : ∀ r ∈ relevantRowsRaw (jsToLower message) rows, r.type.isSome = true :=
        fun r hr => hall r (relevantRowsRaw_subset (jsToLower message) rows r hr)
      obtain ⟨scored, hscored⟩ := scoreRowsRaw_ok _ hsub
      refine ⟨((scored.mergeSort (fun a b => decide (b.2 ≤ a.2))).map (fun p => p.1)).take 12, ?_⟩
      simp [scopeKnowledgeRaw, hne, hscored, Bind.bind, Except.bind]
  · intro r hr
    exact ⟨"TypeError: cannot read toLowerCase of null",
      by simp [compositeScoreRaw, typePrefRaw, hr, Bind.bind, Except.bind]⟩

/-- Witness for the presence-precondition theorem at a one-row corpus
whose type is present. -/
theorem ranking_presence_total_witness :
    (∃ out, scopeKnowledgeRaw "query"
        [{ project := some "p", type := some "summary", title := none,
           content := some "c", tags := none, role := none, pillar := none,
           medium := none, aspect := none, audience := none, tools_methods := none,
           one_liner := none, is_highlight := none, depth := none }] 12 = .ok out)
    ∧ depthScore none = 0
    ∧ (∀ r : RawRow, r.type = none → ∃ e, compositeScoreRaw r = .error e) :=
  ranking_presence_total "query" _ (by decide)
